import Mathlib
/-!
Shallow embedding of `Source/ModdingEx/Private/ModBuilder.cpp`.

The embedding covers the three pieces of decision logic of the repository:

* the pakchunk filename grammar and highest-chunk selection loop of
  `UModBuilder::BuildMod` (regex `^pakchunk(\d+)(-([^-.]+))?\.pak$`,
  strictly-greater running maximum over the directory listing);
* the copy/staging phase of `UModBuilder::BuildMod` (pak copy, conditional
  utoc/ucas copies under `bUseIoStore`, aggregate `bEssentialFilesCopied`);
* the orchestration of `UModBuilder::BuildMod` (live-coding toggle, temp
  staging directory lifecycle, staged-Paks-dir fallback chain) and
  `UModBuilder::ZipModInternal` (canonical file discovery and archive
  writing).

Filesystem state is passed explicitly: a directory is a listing of names
(or a partial map from paths to byte contents), copy/read outcomes are
oracles, and the observable behaviour is an event trace plus the boolean
outcome and the exit point taken.  Chunk indices are modelled as `Nat`
values clamped to the `int32` maximum, reproducing what
`FCString::Atoi` returns for the sign-free digit run captured by the
regex: it lands in `strtol` with a 32-bit `long` on the Windows
toolchain this builder drives (`RunUAT.bat`, platform `Win64`), which
clamps an overflowing non-negative parse to `INT32_MAX`, so two
out-of-range numerals compare equal and the first-seen candidate wins
the strict-greater selection loop.
-/
/-- Matches a literal character sequence at the front of a list, returning
the remainder on success.  Used to model the literal `pakchunk` token of
the regex. -/
def dropLead : List Char → List Char → Option (List Char)
  | [], cs => some cs
  | _ :: _, [] => none
  | p :: ps, c :: cs => if c = p then dropLead ps cs else none
/-- Value of a run of decimal digits, as `FCString::Atoi` computes it on
the capture group `(\d+)`: a non-negative decimal parse whose result is
clamped to `INT32_MAX` (2147483647), the behaviour of the underlying
`strtol` with a 32-bit `long` on the builder's Windows toolchain when
the numeral exceeds the `int32` range. -/
def digitsVal (ds : List Char) : Nat :=
  min (ds.foldl (fun a c => 10 * a + (c.toNat - 48)) 0) 2147483647
/-- The part of the regex after the digit run: either exactly `.pak`, or a
hyphen followed by a non-empty platform tag drawn from `[^-.]` and then
`.pak`.  Returns the optional platform tag. -/
def parseTail (r : List Char) : Option (Option String) :=
  if r = ['.', 'p', 'a', 'k'] then some none
  else
    match r with
    | [] => none
    | c :: t =>
      if c = '-' then
        let plat := t.takeWhile fun c => c != '-' && c != '.'
        let r3 := t.dropWhile fun c => c != '-' && c != '.'
        if plat = [] then none
        else if r3 = ['.', 'p', 'a', 'k'] then some (some ⟨plat⟩) else none
      else none
/-- The chunk grammar `^pakchunk(\d+)(-([^-.]+))?\.pak$` of
`UModBuilder::BuildMod`, as a total parser: returns the numeric chunk
index and the optional platform tag, or `none` when the filename does not
match. -/
def parsePakChunk (s : String) : Option (Nat × Option String) :=
  match dropLead "pakchunk".data s.data with
  | none => none
  | some rest =>
    let ds := rest.takeWhile Char.isDigit
    if ds = [] then none
    else
      match parseTail (rest.dropWhile Char.isDigit) with
      | none => none
      | some plat => some (digitsVal ds, plat)
/-- The `*.pak` glob passed to `IFileManager::FindFiles`: the filename
ends in `.pak`. -/
def matchesGlobPak (s : String) : Bool :=
  decide (s.data.reverse.take 4 = ['k', 'a', 'p', '.'])
/-- Numeric chunk index of a filename under the chunk grammar, when it
matches. -/
def chunkIdx (f : String) : Option Nat :=
  (parsePakChunk f).map Prod.fst
/-- A candidate as the selection loop sees it: chunk index paired with the
filename, or nothing when the grammar does not match. -/
def pakCand (f : String) : Option (Nat × String) :=
  match parsePakChunk f with
  | none => none
  | some (n, _) => some (n, f)
/-- Merging of a running best candidate with a later candidate: the later
one wins only on a strictly greater chunk index
(`CurrentChunkNum > HighestChunkNum`). -/
def combineBest : Option (Nat × String) → Option (Nat × String) → Option (Nat × String)
  | none, r => r
  | some b, none => some b
  | some b, some c => if b.1 < c.1 then some c else some b
/-- One iteration of the `for (const FString& PakFilename : FoundFiles)`
loop of `UModBuilder::BuildMod`. -/
def chunkStep (best : Option (Nat × String)) (f : String) : Option (Nat × String) :=
  combineBest best (pakCand f)
/-- The whole selection loop: running maximum over the listing, initial
state `HighestChunkNum = -1` / empty filename (modelled as `none`). -/
def findHighestChunk (files : List String) : Option (Nat × String) :=
  files.foldl chunkStep none
/-- Structural-recursion companion of `findHighestChunk`, used to reason
about the fold. -/
def selectChunk : List String → Option (Nat × String)
  | [] => none
  | f :: rest => combineBest (pakCand f) (selectChunk rest)
/-- Observable actions of one `UModBuilder::BuildMod` invocation. -/
inductive Ev where
  | setLive (b : Bool)
  | savedAll
  | preClean (ok : Bool)
  | madeTemp
  | ranUat (ok : Bool)
  | usePaks (dir : String)
  | copyFile (dest src : String) (ok : Bool)
  | delTemp (ok : Bool)
  | warnDelTemp
  deriving DecidableEq, Repr
/-- `FPaths::GetBaseFilename` on a bare filename: the name with the part
from the last dot on removed. -/
def getBaseFilename (s : String) : String :=
  if '.' ∈ s.data then ⟨((s.data.reverse.dropWhile fun c => c != '.').drop 1).reverse⟩
  else s
/-- Outcome of the copy phase of `UModBuilder::BuildMod` (the block
from the `FindFiles` call to the computation of
`bEssentialFilesCopied`). -/
structure StageOut where
  events : List Ev
  pakCopied : Bool
  utocCopied : Bool
  ucasCopied : Bool
  essential : Bool
  deriving DecidableEq, Repr
/-- The copy phase of `UModBuilder::BuildMod`: select the highest
pakchunk among the `*.pak` listing of the staged Paks directory, then
copy it (and, under `bUseIoStore`, its companions) to the canonical
destination names.  `files` is the listing of the staged Paks directory,
`copyOk` the per-destination outcome of `IFileManager::Copy`. -/
def stagePhase (files : List String) (useIoStore : Bool) (copyOk : String → Bool)
    (modName outDir paksDir : String) : StageOut :=
  match findHighestChunk (files.filter matchesGlobPak) with
  | none => ⟨[], false, false, false, false⟩
  | some (_, pakName) =>
    let base := getBaseFilename pakName
    let utocName := base ++ ".utoc"
    let ucasName := base ++ ".ucas"
    let destPak := outDir ++ "/" ++ modName ++ ".pak"
    let destUtoc := outDir ++ "/" ++ modName ++ ".utoc"
    let destUcas := outDir ++ "/" ++ modName ++ ".ucas"
    let pakCopied := if pakName ∈ files then copyOk destPak else false
    let evPak : List Ev :=
      if pakName ∈ files then [Ev.copyFile destPak (paksDir ++ "/" ++ pakName) (copyOk destPak)]
      else []
    let utocCopied :=
      if useIoStore = true then (if utocName ∈ files then copyOk destUtoc else false) else false
    let evUtoc : List Ev :=
      if useIoStore = true then
        (if utocName ∈ files then
          [Ev.copyFile destUtoc (paksDir ++ "/" ++ utocName) (copyOk destUtoc)]
        else [])
      else []
    let ucasCopied :=
      if useIoStore = true ∧ utocCopied = true then
        (if ucasName ∈ files then copyOk destUcas else false)
      else false
    let evUcas : List Ev :=
      if useIoStore = true ∧ utocCopied = true then
        (if ucasName ∈ files then
          [Ev.copyFile destUcas (paksDir ++ "/" ++ ucasName) (copyOk destUcas)]
        else [])
      else []
    let essential := pakCopied && (if useIoStore = true then utocCopied && ucasCopied else true)
    ⟨evPak ++ evUtoc ++ evUcas, pakCopied, utocCopied, ucasCopied, essential⟩
/-- Exit point taken by one `UModBuilder::BuildMod` invocation. -/
inductive BuildExit where
  | outputDirFail
  | uatMissing
  | mkTempFail
  | uatFail
  | paksDirMissing
  | notAllCopied
  | success
  deriving DecidableEq, Repr
/-- Environment of one `UModBuilder::BuildMod` invocation: settings,
collaborator outcomes, and the relevant filesystem state. -/
structure BuildEnv where
  saveAllBefore : Bool
  outputOk : Bool
  outputDir : String
  uatExists : Bool
  tempPreexists : Bool
  preCleanOk : Bool
  mkTempOk : Bool
  uatOk : Bool
  tempDir : String
  projectName : String
  dirWin64 : Bool
  dirPlain : Bool
  dirWindows : Bool
  paksFiles : List String
  useIoStore : Bool
  copyOk : String → Bool
  delTempOk : Bool
/-- Result of one `UModBuilder::BuildMod` invocation: the returned
boolean, the exit point, and the trace of observable actions. -/
structure BuildResult where
  ok : Bool
  exit : BuildExit
  events : List Ev
/-- The staged-Paks-directory fallback chain of `UModBuilder::BuildMod`:
`{staging}/Win64/{project}/Content/Paks`, then
`{staging}/{project}/Content/Paks`, then
`{staging}/Windows/{project}/Content/Paks`; `none` when no candidate
directory exists. -/
def stagedPaksDir (env : BuildEnv) : Option String :=
  if env.dirWin64 = true then
    some (env.tempDir ++ "/Win64/" ++ env.projectName ++ "/Content/Paks")
  else if env.dirPlain = true then
    some (env.tempDir ++ "/" ++ env.projectName ++ "/Content/Paks")
  else if env.dirWindows = true then
    some (env.tempDir ++ "/Windows/" ++ env.projectName ++ "/Content/Paks")
  else none
/-- `UModBuilder::BuildMod`, step by step: live-coding off, optional
save-all, output-folder lookup, `RunUAT.bat` existence check, temp
staging directory creation, UAT invocation, staged-Paks-dir resolution,
copy phase, temp-dir cleanup (with a warning only on the post-copy
path), notification and live-coding restore on the success path. -/
def buildMod (env : BuildEnv) (modName : String) : BuildResult :=
  let ev1 : List Ev := [Ev.setLive false] ++ (if env.saveAllBefore = true then [Ev.savedAll] else [])
  if env.outputOk = false then ⟨false, BuildExit.outputDirFail, ev1⟩ else
  if env.uatExists = false then ⟨false, BuildExit.uatMissing, ev1⟩ else
  let ev2 := ev1 ++ (if env.tempPreexists = true then [Ev.preClean env.preCleanOk] else [])
  if env.mkTempOk = false then ⟨false, BuildExit.mkTempFail, ev2⟩ else
  let ev3 := ev2 ++ [Ev.madeTemp, Ev.ranUat env.uatOk]
  if env.uatOk = false then ⟨false, BuildExit.uatFail, ev3 ++ [Ev.delTemp env.delTempOk]⟩ else
  match stagedPaksDir env with
  | none => ⟨false, BuildExit.paksDirMissing, ev3 ++ [Ev.delTemp env.delTempOk]⟩
  | some d =>
    let st := stagePhase env.paksFiles env.useIoStore env.copyOk modName env.outputDir d
    let ev5 := ev3 ++ [Ev.usePaks d] ++ st.events ++ [Ev.delTemp env.delTempOk]
      ++ (if env.delTempOk = false then [Ev.warnDelTemp] else [])
    if st.essential = false then ⟨false, BuildExit.notAllCopied, ev5⟩
    else ⟨true, BuildExit.success, ev5 ++ [Ev.setLive true]⟩
/-- Copy of a `BuildEnv` with only the `delTempOk` collaborator outcome
replaced.  Written with an explicit constructor so each projection
reduces definitionally. -/
def setDelTempOk (e : BuildEnv) (b : Bool) : BuildEnv :=
  ⟨e.saveAllBefore, e.outputOk, e.outputDir, e.uatExists, e.tempPreexists, e.preCleanOk,
    e.mkTempOk, e.uatOk, e.tempDir, e.projectName, e.dirWin64, e.dirPlain, e.dirWindows,
    e.paksFiles, e.useIoStore, e.copyOk, b⟩
/-- Observable actions of one `UModBuilder::ZipModInternal` invocation
against the archive-writer collaborator. -/
inductive ZEv where
  | openedArchive
  | addFile (name : String) (bytes : List Nat)
  | closedArchive
  deriving DecidableEq, Repr
/-- Exit point taken by one `UModBuilder::ZipModInternal` invocation. -/
inductive ZipExit where
  | outputDirFail
  | nothingToArchive
  | zipDirFail
  | openFail
  | readFail
  | done
  deriving DecidableEq, Repr
/-- Environment of one `UModBuilder::ZipModInternal` invocation.
`fsContent` maps a full path to the byte contents of the file there
(`none` when no file exists); `readOk` is the outcome of
`FFileHelper::LoadFileToArray` on an existing file. -/
structure ZipEnv where
  outputOk : Bool
  outputDir : String
  fsContent : String → Option (List Nat)
  zipDirOk : Bool
  openOk : Bool
  readOk : String → Bool
/-- Result of one `UModBuilder::ZipModInternal` invocation. -/
structure ZipResult where
  ok : Bool
  exit : ZipExit
  events : List ZEv
/-- `FPaths::GetCleanFilename` on a slash-separated path: the part after
the last slash. -/
def getCleanFilename (s : String) : String :=
  ⟨(s.data.reverse.takeWhile fun c => c != '/').reverse⟩
/-- `UModBuilder::ZipModInternal`: look up the canonical `{mod}.pak` in
the output folder, add the `{mod}.utoc`/`{mod}.ucas` pair only when both
exist, fail when nothing was found, then open the archive and add the
bytes of each file under its clean filename, continuing past read
failures but failing overall on any. -/
def zipModInternal (env : ZipEnv) (modName : String) : ZipResult :=
  if env.outputOk = false then ⟨false, ZipExit.outputDirFail, []⟩ else
  let pakPath := env.outputDir ++ "/" ++ modName ++ ".pak"
  let utocPath := env.outputDir ++ "/" ++ modName ++ ".utoc"
  let ucasPath := env.outputDir ++ "/" ++ modName ++ ".ucas"
  let files : List String :=
    (if (env.fsContent pakPath).isSome = true then [pakPath] else [])
      ++ (if (env.fsContent utocPath).isSome = true ∧ (env.fsContent ucasPath).isSome = true then
            [utocPath, ucasPath]
          else [])
  if files = [] then ⟨false, ZipExit.nothingToArchive, []⟩ else
  if env.zipDirOk = false then ⟨false, ZipExit.zipDirFail, []⟩ else
  if env.openOk = false then ⟨false, ZipExit.openFail, []⟩ else
  let step := fun (acc : Bool × List ZEv) (p : String) =>
    match env.fsContent p with
    | some bytes =>
      if env.readOk p = true then (acc.1, acc.2 ++ [ZEv.addFile (getCleanFilename p) bytes])
      else (false, acc.2)
    | none => (false, acc.2)
  let res := files.foldl step (true, [ZEv.openedArchive])
  if res.1 = true then ⟨true, ZipExit.done, res.2 ++ [ZEv.closedArchive]⟩
  else ⟨false, ZipExit.readFail, res.2 ++ [ZEv.closedArchive]⟩

/-- Build environment where the UAT step fails and the temp-directory
deletion also fails: the deletion result is ignored on this exit path. -/
def envCleanupCx : BuildEnv :=
  { saveAllBefore := false, outputOk := true, outputDir := "out", uatExists := true,
    tempPreexists := false, preCleanOk := true, mkTempOk := true, uatOk := false,
    tempDir := "tmp", projectName := "Proj", dirWin64 := true, dirPlain := false,
    dirWindows := false, paksFiles := [], useIoStore := false, copyOk := fun _ => true,
    delTempOk := false }

/-- Build environment that reaches the copy phase with a failing
temp-directory deletion. -/
def envCleanupW : BuildEnv :=
  { saveAllBefore := false, outputOk := true, outputDir := "out", uatExists := true,
    tempPreexists := false, preCleanOk := true, mkTempOk := true, uatOk := true,
    tempDir := "tmp", projectName := "Proj", dirWin64 := true, dirPlain := false,
    dirWindows := false, paksFiles := ["pakchunk1.pak"], useIoStore := false,
    copyOk := fun _ => true, delTempOk := false }

/-- Build environment whose output-folder lookup fails (the
`GetOutputFolder` configuration-error exit). -/
def envLiveCx : BuildEnv :=
  { saveAllBefore := false, outputOk := false, outputDir := "out", uatExists := true,
    tempPreexists := false, preCleanOk := true, mkTempOk := true, uatOk := true,
    tempDir := "tmp", projectName := "Proj", dirWin64 := false, dirPlain := false,
    dirWindows := false, paksFiles := [], useIoStore := false, copyOk := fun _ => true,
    delTempOk := true }

/-- Build environment of a fully successful invocation. -/
def envLiveW : BuildEnv :=
  { saveAllBefore := false, outputOk := true, outputDir := "out", uatExists := true,
    tempPreexists := false, preCleanOk := true, mkTempOk := true, uatOk := true,
    tempDir := "tmp", projectName := "Proj", dirWin64 := true, dirPlain := false,
    dirWindows := false, paksFiles := ["pakchunk1.pak"], useIoStore := false,
    copyOk := fun _ => true, delTempOk := true }

/-- Build environment where only the second staged-Paks-dir candidate
(without the platform segment) exists. -/
def envPaksW : BuildEnv :=
  { saveAllBefore := false, outputOk := true, outputDir := "out", uatExists := true,
    tempPreexists := false, preCleanOk := true, mkTempOk := true, uatOk := true,
    tempDir := "tmp", projectName := "Proj", dirWin64 := false, dirPlain := true,
    dirWindows := false, paksFiles := ["pakchunk1.pak"], useIoStore := false,
    copyOk := fun _ => true, delTempOk := true }

/-- Build environment whose staged Paks directory holds only the
unnumbered default output `MyGame.pak`, which the chunk grammar does not
match. -/
def envNoCand : BuildEnv :=
  { saveAllBefore := false, outputOk := true, outputDir := "out", uatExists := true,
    tempPreexists := false, preCleanOk := true, mkTempOk := true, uatOk := true,
    tempDir := "tmp", projectName := "Proj", dirWin64 := true, dirPlain := false,
    dirWindows := false, paksFiles := ["MyGame.pak"], useIoStore := true,
    copyOk := fun _ => true, delTempOk := true }

/-- Zip environment whose output folder holds the companion pair
`MyMod.utoc`/`MyMod.ucas` but no `MyMod.pak`. -/
def envZipCx : ZipEnv :=
  { outputOk := true, outputDir := "out",
    fsContent := fun p =>
      if p = "out/MyMod.utoc" then some [7]
      else if p = "out/MyMod.ucas" then some [8]
      else none,
    zipDirOk := true, openOk := true, readOk := fun _ => true }

/-- Zip environment whose output folder is empty. -/
def envZipEmpty : ZipEnv :=
  { outputOk := true, outputDir := "out", fsContent := fun _ => none,
    zipDirOk := true, openOk := true, readOk := fun _ => true }

/-- Zip environment whose output folder holds all three canonical
files. -/
def envZipFull : ZipEnv :=
  { outputOk := true, outputDir := "out",
    fsContent := fun p =>
      if p = "out/MyMod.pak" then some [1, 2]
      else if p = "out/MyMod.utoc" then some [3]
      else if p = "out/MyMod.ucas" then some [4]
      else none,
    zipDirOk := true, openOk := true, readOk := fun _ => true }

theorem dropLead_sound : ∀ ps cs rest, dropLead ps cs = some rest → cs = ps ++ rest := by
  intro ps
  induction ps with
  | nil =>
    intro cs rest h
    simp only [dropLead, Option.some.injEq] at h
    simp [h]
  | cons p ps ih =>
    intro cs rest h
    cases cs with
    | nil => simp [dropLead] at h
    | cons c cs' =>
      simp only [dropLead] at h
      by_cases hc : c = p
      · rw [if_pos hc] at h
        subst hc
        simp [ih _ _ h]
      · rw [if_neg hc] at h
        simp at h
theorem matchesGlobPak_of_suffix {s : String} {pre : List Char}
    (h : s.data = pre ++ ['.', 'p', 'a', 'k']) : matchesGlobPak s = true := by
  have hrev : s.data.reverse = 'k' :: 'a' :: 'p' :: '.' :: pre.reverse := by
    rw [h, List.reverse_append]
    rfl
  simp [matchesGlobPak, hrev]
theorem parseTail_suffix {r : List Char} {p : Option String}
    (h : parseTail r = some p) : ∃ pre, r = pre ++ ['.', 'p', 'a', 'k'] := by
  unfold parseTail at h
  by_cases h1 : r = ['.', 'p', 'a', 'k']
  · exact ⟨[], by simpa using h1⟩
  · rw [if_neg h1] at h
    cases r with
    | nil => simp at h
    | cons c t =>
      simp only at h
      by_cases hc : c = '-'
      · rw [if_pos hc] at h
        subst hc
        by_cases h2 : t.takeWhile (fun c => c != '-' && c != '.') = []
        · rw [if_pos h2] at h; simp at h
        · rw [if_neg h2] at h
          by_cases h3 : t.dropWhile (fun c => c != '-' && c != '.') = ['.', 'p', 'a', 'k']
          · refine ⟨'-' :: t.takeWhile (fun c => c != '-' && c != '.'), ?_⟩
            have hsplit := List.takeWhile_append_dropWhile
              (p := fun c => c != '-' && c != '.') (l := t)
            rw [List.cons_append, ← h3, hsplit]
          · rw [if_neg h3] at h; simp at h
      · rw [if_neg hc] at h; simp at h
/-- A filename that matches the chunk grammar also matches the `*.pak`
glob, so the `FindFiles` pre-filter never discards a grammar candidate. -/
theorem matchesGlobPak_of_parse {s : String} {x : Nat × Option String}
    (h : parsePakChunk s = some x) : matchesGlobPak s = true := by
  unfold parsePakChunk at h
  cases hd : dropLead "pakchunk".data s.data with
  | none => rw [hd] at h; simp at h
  | some rest =>
    rw [hd] at h
    simp only at h
    by_cases h1 : rest.takeWhile Char.isDigit = []
    · rw [if_pos h1] at h; simp at h
    · rw [if_neg h1] at h
      cases ht : parseTail (rest.dropWhile Char.isDigit) with
      | none => rw [ht] at h; simp at h
      | some plat =>
        obtain ⟨pre, hpre⟩ := parseTail_suffix ht
        have hs : s.data = "pakchunk".data ++ rest := dropLead_sound _ _ _ hd
        have hrest : rest = rest.takeWhile Char.isDigit ++ (pre ++ ['.', 'p', 'a', 'k']) := by
          rw [← hpre, List.takeWhile_append_dropWhile]
        have hs2 : s.data =
            "pakchunk".data ++ (rest.takeWhile Char.isDigit ++ (pre ++ ['.', 'p', 'a', 'k'])) := by
          rw [hs]; exact congrArg _ hrest
        have hfin : s.data =
            ("pakchunk".data ++ (rest.takeWhile Char.isDigit ++ pre)) ++ ['.', 'p', 'a', 'k'] := by
          rw [hs2]
          simp
        exact matchesGlobPak_of_suffix hfin
theorem combineBest_none_right (b : Option (Nat × String)) :
    combineBest b none = b := by
  cases b <;> rfl
theorem combineBest_assoc (a b c : Option (Nat × String)) :
    combineBest (combineBest a b) c = combineBest a (combineBest b c) := by
  cases a with
  | none => rfl
  | some x =>
    cases b with
    | none => rfl
    | some y =>
      cases c with
      | none => simp [combineBest_none_right]
      | some z =>
        by_cases h1 : x.1 < y.1 <;> by_cases h2 : y.1 < z.1 <;> by_cases h3 : x.1 < z.1 <;>
          simp [combineBest, h1, h2, h3] <;> omega
theorem foldl_chunkStep (l : List String) :
    ∀ acc, l.foldl chunkStep acc = combineBest acc (selectChunk l) := by
  induction l with
  | nil =>
    intro acc
    simp [selectChunk, combineBest_none_right]
  | cons f rest ih =>
    intro acc
    simp only [List.foldl_cons, selectChunk]
    rw [ih (chunkStep acc f)]
    show combineBest (combineBest acc (pakCand f)) (selectChunk rest) = _
    rw [combineBest_assoc]
theorem findHighestChunk_eq_selectChunk (l : List String) :
    findHighestChunk l = selectChunk l := by
  unfold findHighestChunk
  rw [foldl_chunkStep]
  rfl
theorem combineBest_eq_none {a b : Option (Nat × String)} :
    combineBest a b = none ↔ a = none ∧ b = none := by
  cases a <;> cases b <;> simp [combineBest]
  split <;> simp
theorem pakCand_eq_none {f : String} :
    pakCand f = none ↔ parsePakChunk f = none := by
  unfold pakCand
  cases h : parsePakChunk f with
  | none => simp
  | some x => cases x; simp
theorem selectChunk_eq_none (l : List String) :
    selectChunk l = none ↔ ∀ f ∈ l, parsePakChunk f = none := by
  induction l with
  | nil => simp [selectChunk]
  | cons f rest ih =>
    simp only [selectChunk, combineBest_eq_none, pakCand_eq_none, ih, List.mem_cons]
    constructor
    · rintro ⟨h1, h2⟩ g hg
      rcases hg with rfl | hg
      · exact h1
      · exact h2 g hg
    · intro h
      exact ⟨h f (Or.inl rfl), fun g hg => h g (Or.inr hg)⟩
/-- Full characterisation of the selection loop result: the winner is a
member of the list, matches the grammar with the returned index, the
index is maximal among all grammar matches, and the winner is the first
element of the list carrying that maximal index. -/
theorem selectChunk_spec (l : List String) :
    ∀ n f, selectChunk l = some (n, f) →
      f ∈ l ∧ (∃ p, parsePakChunk f = some (n, p)) ∧
      (∀ g ∈ l, ∀ m q, parsePakChunk g = some (m, q) → m ≤ n) ∧
      l.find? (fun g => chunkIdx g == some n) = some f := by
  induction l with
  | nil => intro n f h; simp [selectChunk] at h
  | cons a rest ih =>
    intro n f h
    simp only [selectChunk] at h
    cases hp : parsePakChunk a with
    | none =>
      have hcand : pakCand a = none := pakCand_eq_none.mpr hp
      rw [hcand] at h
      have hrest : selectChunk rest = some (n, f) := h
      obtain ⟨hmem, hparse, hmax, hfind⟩ := ih n f hrest
      refine ⟨List.mem_cons_of_mem _ hmem, hparse, ?_, ?_⟩
      · intro g hg m q hpg
        rcases List.mem_cons.mp hg with rfl | hg'
        · rw [hp] at hpg; cases hpg
        · exact hmax g hg' m q hpg
      · rw [List.find?_cons_of_neg, hfind]
        simp [chunkIdx, hp]
    | some nk =>
      obtain ⟨k, q⟩ := nk
      have hcand : pakCand a = some (k, a) := by simp [pakCand, hp]
      rw [hcand] at h
      cases hs : selectChunk rest with
      | none =>
        rw [hs, combineBest_none_right] at h
        obtain ⟨rfl, rfl⟩ : k = n ∧ a = f := by
          simpa using h
        have hnone := (selectChunk_eq_none rest).mp hs
        refine ⟨List.mem_cons_self _ _, ⟨q, hp⟩, ?_, ?_⟩
        · intro g hg m q' hpg
          rcases List.mem_cons.mp hg with rfl | hg'
          · rw [hp] at hpg
            injection hpg with h1
            injection h1 with h2 h3
            omega
          · rw [hnone g hg'] at hpg; cases hpg
        · rw [List.find?_cons_of_pos]
          simp [chunkIdx, hp]
      | some bc =>
        obtain ⟨bi, bf⟩ := bc
        rw [hs] at h
        simp only [combineBest] at h
        by_cases hgt : k < bi
        · rw [if_pos hgt] at h
          obtain ⟨hmem, hparse, hmax, hfind⟩ := ih bi bf hs
          obtain ⟨rfl, rfl⟩ : bi = n ∧ bf = f := by simpa using h
          refine ⟨List.mem_cons_of_mem _ hmem, hparse, ?_, ?_⟩
          · intro g hg m q' hpg
            rcases List.mem_cons.mp hg with rfl | hg'
            · rw [hp] at hpg
              injection hpg with h1
              injection h1 with h2 h3
              omega
            · exact hmax g hg' m q' hpg
          · rw [List.find?_cons_of_neg, hfind]
            simp only [chunkIdx, hp, Option.map_some']
            simp only [beq_iff_eq, Option.some.injEq]
            omega
        · rw [if_neg hgt] at h
          obtain ⟨rfl, rfl⟩ : k = n ∧ a = f := by simpa using h
          obtain ⟨hmem, hparse, hmax, hfind⟩ := ih bi bf hs
          refine ⟨List.mem_cons_self _ _, ⟨q, hp⟩, ?_, ?_⟩
          · intro g hg m q' hpg
            rcases List.mem_cons.mp hg with rfl | hg'
            · rw [hp] at hpg
              injection hpg with h1
              injection h1 with h2 h3
              omega
            · have := hmax g hg' m q' hpg
              omega
          · rw [List.find?_cons_of_pos]
            simp [chunkIdx, hp]
/-- A pre-filter that only removes elements the searched-for predicate can
never accept does not change the result of `find?`. -/
theorem find?_filter_of_imp (p q : String → Bool) (l : List String)
    (himp : ∀ g, p g = true → q g = true) :
    (l.filter q).find? p = l.find? p := by
  induction l with
  | nil => rfl
  | cons a t ih =>
    by_cases hq : q a = true
    · rw [List.filter_cons_of_pos hq]
      by_cases hp : p a = true
      · rw [List.find?_cons_of_pos _ hp, List.find?_cons_of_pos _ hp]
      · have hp' : ¬p a = true := hp
        rw [List.find?_cons_of_neg _ hp', List.find?_cons_of_neg _ hp', ih]
    · rw [List.filter_cons_of_neg (by simpa using hq), ih,
        List.find?_cons_of_neg]
      intro hpa
      exact hq (himp a hpa)

theorem strData_append (a b : String) : (a ++ b).data = a.data ++ b.data := by
  cases a; cases b; rfl

/-- Appending different suffixes to the same string yields different
strings. -/
theorem strAppend_ne_of_ne {e₁ e₂ : String} (x : String) (h : e₁ ≠ e₂) :
    x ++ e₁ ≠ x ++ e₂ := by
  intro he
  apply h
  have hd := congrArg String.data he
  rw [strData_append, strData_append] at hd
  have hdd := List.append_cancel_left hd
  cases e₁; cases e₂
  exact congrArg String.mk (by simpa using hdd)

theorem strAppend_assoc (a b c : String) : a ++ b ++ c = a ++ (b ++ c) := by
  cases a; cases b; cases c
  show String.mk _ = String.mk _
  simp [String.append, List.append_assoc]

/-- C1: for every listing of the staged Paks directory, the selection
loop considers exactly the files matching the chunk grammar
`^pakchunk(\d+)(-([^-.]+))?\.pak$` and selects exactly one of them, the
one with the numerically highest chunk index; among several sharing the
maximum index the first one in listing order wins (the comparison is
strict), so the result is determined by the listing. -/
theorem chunk_resolution_selects_highest (files : List String) :
    (findHighestChunk (files.filter matchesGlobPak) = none ↔
      ∀ f ∈ files, parsePakChunk f = none) ∧
    (∀ n f, findHighestChunk (files.filter matchesGlobPak) = some (n, f) →
      f ∈ files ∧ (∃ p, parsePakChunk f = some (n, p)) ∧
      (∀ g ∈ files, ∀ m q, parsePakChunk g = some (m, q) → m ≤ n) ∧
      files.find? (fun g => chunkIdx g == some n) = some f) := by
  rw [findHighestChunk_eq_selectChunk]
  constructor
  · rw [selectChunk_eq_none]
    constructor
    · intro h f hf
      cases hp : parsePakChunk f with
      | none => rfl
      | some x =>
        have hmem : f ∈ files.filter matchesGlobPak :=
          List.mem_filter.mpr ⟨hf, matchesGlobPak_of_parse hp⟩
        have h2 := h f hmem
        rw [hp] at h2
        simp at h2
    · intro h f hf
      exact h f (List.mem_of_mem_filter hf)
  · intro n f hsel
    obtain ⟨hmem, hparse, hmax, hfind⟩ := selectChunk_spec _ n f hsel
    refine ⟨List.mem_of_mem_filter hmem, hparse, ?_, ?_⟩
    · intro g hg m q hpg
      exact hmax g (List.mem_filter.mpr ⟨hg, matchesGlobPak_of_parse hpg⟩) m q hpg
    · rw [← find?_filter_of_imp (fun g => chunkIdx g == some n) matchesGlobPak files ?_]
      · exact hfind
      · intro g hg
        simp only [beq_iff_eq] at hg
        obtain ⟨x, hx, -⟩ := Option.map_eq_some'.mp hg
        exact matchesGlobPak_of_parse hx

theorem chunk_resolution_selects_highest_witness :
    ("pakchunk17-Win64.pak" ∈
        ["pakchunk3-Win64.pak", "pakchunk17-Win64.pak", "pakchunk9-Win64.pak"] ∧
      (∃ p, parsePakChunk "pakchunk17-Win64.pak" = some (17, p)) ∧
      (∀ g ∈ ["pakchunk3-Win64.pak", "pakchunk17-Win64.pak", "pakchunk9-Win64.pak"],
        ∀ m q, parsePakChunk g = some (m, q) → m ≤ 17) ∧
      ["pakchunk3-Win64.pak", "pakchunk17-Win64.pak", "pakchunk9-Win64.pak"].find?
          (fun g => chunkIdx g == some 17) = some "pakchunk17-Win64.pak") ∧
    ((∃ p, parsePakChunk "pakchunk2147483648-A.pak" = some (2147483647, p)) ∧
      ["pakchunk2147483648-A.pak", "pakchunk2147483649-B.pak"].find?
          (fun g => chunkIdx g == some 2147483647) = some "pakchunk2147483648-A.pak") :=
  have h2 := (chunk_resolution_selects_highest
    ["pakchunk2147483648-A.pak", "pakchunk2147483649-B.pak"]).2
    2147483647 "pakchunk2147483648-A.pak" (by decide)
  ⟨(chunk_resolution_selects_highest
      ["pakchunk3-Win64.pak", "pakchunk17-Win64.pak", "pakchunk9-Win64.pak"]).2
      17 "pakchunk17-Win64.pak" (by decide),
    h2.2.1, h2.2.2.2⟩

/-- C5: a staged Paks directory with no file matching the chunk grammar
(for example one holding only an unnumbered default output) yields no
candidate: the copy phase performs no copy at all, every per-file flag is
false, and the build invocation reports failure. -/
theorem no_candidates_fails_without_copies (env : BuildEnv) (modName : String)
    (h : ∀ f ∈ env.paksFiles, parsePakChunk f = none) :
    (∀ useIoStore copyOk outDir paksDir,
      stagePhase env.paksFiles useIoStore copyOk modName outDir paksDir =
        ⟨[], false, false, false, false⟩) ∧
    (buildMod env modName).ok = false := by
  have hsel : findHighestChunk (env.paksFiles.filter matchesGlobPak) = none := by
    rw [findHighestChunk_eq_selectChunk, selectChunk_eq_none]
    intro f hf
    exact h f (List.mem_of_mem_filter hf)
  have hstage : ∀ useIoStore copyOk outDir paksDir,
      stagePhase env.paksFiles useIoStore copyOk modName outDir paksDir =
        ⟨[], false, false, false, false⟩ := by
    intro useIoStore copyOk outDir paksDir
    unfold stagePhase
    rw [hsel]
  refine ⟨hstage, ?_⟩
  cases h1 : env.outputOk <;> cases h2 : env.uatExists <;> cases h4 : env.mkTempOk <;>
    cases h5 : env.uatOk <;> cases h6 : stagedPaksDir env <;>
      simp [buildMod, h1, h2, h4, h5, h6, hstage]

theorem no_candidates_fails_without_copies_witness :
    stagePhase ["MyGame.pak"] true (fun _ => true) "MyMod" "out" "paks" =
      ⟨[], false, false, false, false⟩ ∧
    (buildMod envNoCand "MyMod").ok = false :=
  ⟨(no_candidates_fails_without_copies envNoCand "MyMod" (by decide)).1
      true (fun _ => true) "out" "paks",
    (no_candidates_fails_without_copies envNoCand "MyMod" (by decide)).2⟩

/-- Counterexample to C2: with IO Store enabled, a winning pakchunk whose
companion `.utoc` is absent from the staging directory, the build fails,
yet the primary pak file is still copied to the destination — the trace
holds exactly that copy. -/
theorem stager_copies_primary_despite_missing_companion :
    stagePhase ["pakchunk1-Win64.pak"] true (fun _ => true) "MyMod" "out" "paks" =
      ⟨[Ev.copyFile "out/MyMod.pak" "paks/pakchunk1-Win64.pak" true],
        true, false, false, false⟩ := by
  decide

/-- C2 (amended): with IO Store enabled, when the winning primary
candidate has no matching companion `.utoc` in the staging directory, the
build fails (`bEssentialFilesCopied` is false) and neither companion is
copied; the primary file, however, is still copied first — every copy in
the trace targets the canonical `.pak` destination. -/
theorem missing_companionA_still_copies_primary
    (files : List String) (copyOk : String → Bool) (modName outDir paksDir : String)
    (n : Nat) (pakName : String)
    (hsel : findHighestChunk (files.filter matchesGlobPak) = some (n, pakName))
    (hA : getBaseFilename pakName ++ ".utoc" ∉ files) :
    (stagePhase files true copyOk modName outDir paksDir).essential = false ∧
    (stagePhase files true copyOk modName outDir paksDir).utocCopied = false ∧
    (stagePhase files true copyOk modName outDir paksDir).ucasCopied = false ∧
    ∀ d s ok, Ev.copyFile d s ok ∈ (stagePhase files true copyOk modName outDir paksDir).events →
      d = outDir ++ "/" ++ modName ++ ".pak" := by
  have hA' : (getBaseFilename pakName ++ ".utoc" ∈ files) = False := eq_false hA
  unfold stagePhase
  rw [hsel]
  refine ⟨by simp [hA'], by simp [hA'], by simp [hA'], ?_⟩
  intro d s ok hmem
  simp only [hA'] at hmem
  by_cases hp : pakName ∈ files <;> simp [hp] at hmem
  exact hmem.1

theorem missing_companionA_still_copies_primary_witness :
    (stagePhase ["pakchunk1-Win64.pak"] true (fun _ => true) "MyMod" "out" "paks").essential
        = false ∧
    (stagePhase ["pakchunk1-Win64.pak"] true (fun _ => true) "MyMod" "out" "paks").utocCopied
        = false ∧
    (stagePhase ["pakchunk1-Win64.pak"] true (fun _ => true) "MyMod" "out" "paks").ucasCopied
        = false :=
  have h := missing_companionA_still_copies_primary ["pakchunk1-Win64.pak"] (fun _ => true)
    "MyMod" "out" "paks" 1 "pakchunk1-Win64.pak" (by decide) (by decide)
  ⟨h.1, h.2.1, h.2.2.1⟩

/-- Every copy the copy phase performs targets one of the three canonical
destinations; a companion destination is only targeted under
`bUseIoStore`, and the `.ucas` destination only when the `.utoc` copy
succeeded. -/
theorem stage_events_dests (files : List String) (useIoStore : Bool) (copyOk : String → Bool)
    (modName outDir paksDir : String) :
    ∀ d s ok,
      Ev.copyFile d s ok ∈ (stagePhase files useIoStore copyOk modName outDir paksDir).events →
      d = outDir ++ "/" ++ modName ++ ".pak" ∨
      (useIoStore = true ∧ d = outDir ++ "/" ++ modName ++ ".utoc") ∨
      (useIoStore = true ∧
        (stagePhase files useIoStore copyOk modName outDir paksDir).utocCopied = true ∧
        d = outDir ++ "/" ++ modName ++ ".ucas") := by
  intro d s ok hmem
  cases hsel : findHighestChunk (files.filter matchesGlobPak) with
  | none =>
    unfold stagePhase at hmem
    rw [hsel] at hmem
    simp at hmem
  | some c =>
    obtain ⟨n, pakName⟩ := c
    unfold stagePhase at hmem ⊢
    rw [hsel] at hmem ⊢
    simp only [List.mem_append] at hmem
    rcases hmem with (hmem | hmem) | hmem
    · by_cases hp : pakName ∈ files <;> simp [hp] at hmem
      exact Or.inl hmem.1
    · by_cases hio : useIoStore = true <;>
        by_cases hu : getBaseFilename pakName ++ ".utoc" ∈ files <;>
        simp [hio, hu] at hmem
      exact Or.inr (Or.inl ⟨hio, hmem.1⟩)
    · simp at hmem
      obtain ⟨⟨hio, hu, hcu⟩, hc, hd, -⟩ := hmem
      refine Or.inr (Or.inr ⟨hio, ?_, hd⟩)
      simp [hio, hu, hcu]

/-- C4: with IO Store enabled, the `.ucas` companion copy is attempted
only when the `.utoc` companion copy succeeded; and whenever the winning
candidate has its `.utoc` companion present but its `.ucas` companion
absent, `bUcasCopied` stays false and the build fails. -/
theorem companionB_requires_companionA
    (files : List String) (copyOk : String → Bool) (modName outDir paksDir : String) :
    (∀ s ok,
      Ev.copyFile (outDir ++ "/" ++ modName ++ ".ucas") s ok ∈
        (stagePhase files true copyOk modName outDir paksDir).events →
      (stagePhase files true copyOk modName outDir paksDir).utocCopied = true) ∧
    (∀ n pakName, findHighestChunk (files.filter matchesGlobPak) = some (n, pakName) →
      getBaseFilename pakName ++ ".utoc" ∈ files →
      getBaseFilename pakName ++ ".ucas" ∉ files →
      (stagePhase files true copyOk modName outDir paksDir).ucasCopied = false ∧
      (stagePhase files true copyOk modName outDir paksDir).essential = false) := by
  constructor
  · intro s ok hmem
    rcases stage_events_dests files true copyOk modName outDir paksDir _ s ok hmem with
      h | ⟨-, h⟩ | ⟨-, hu, -⟩
    · exact absurd h (strAppend_ne_of_ne _ (by decide))
    · exact absurd h (strAppend_ne_of_ne _ (by decide))
    · exact hu
  · intro n pakName hsel hA hB
    have hB' : (getBaseFilename pakName ++ ".ucas" ∈ files) = False := eq_false hB
    unfold stagePhase
    rw [hsel]
    exact ⟨by simp [hB'], by simp [hB']⟩

theorem companionB_requires_companionA_witness :
    (stagePhase ["pakchunk1-Win64.pak", "pakchunk1-Win64.utoc"] true (fun _ => true)
      "MyMod" "out" "paks").ucasCopied = false ∧
    (stagePhase ["pakchunk1-Win64.pak", "pakchunk1-Win64.utoc"] true (fun _ => true)
      "MyMod" "out" "paks").essential = false :=
  (companionB_requires_companionA ["pakchunk1-Win64.pak", "pakchunk1-Win64.utoc"]
    (fun _ => true) "MyMod" "out" "paks").2 1 "pakchunk1-Win64.pak"
    (by decide) (by decide) (by decide)

/-- C9: without IO Store, every copy the copy phase performs targets the
canonical `.pak` destination; in particular no write is ever attempted to
the `.utoc` or `.ucas` destination paths. -/
theorem no_companion_writes_without_iostore
    (files : List String) (copyOk : String → Bool) (modName outDir paksDir : String) :
    ∀ d s ok,
      Ev.copyFile d s ok ∈ (stagePhase files false copyOk modName outDir paksDir).events →
      d = outDir ++ "/" ++ modName ++ ".pak" ∧
      d ≠ outDir ++ "/" ++ modName ++ ".utoc" ∧ d ≠ outDir ++ "/" ++ modName ++ ".ucas" := by
  intro d s ok hmem
  rcases stage_events_dests files false copyOk modName outDir paksDir d s ok hmem with
    h | ⟨hio, -⟩ | ⟨hio, -, -⟩
  · subst h
    exact ⟨rfl, strAppend_ne_of_ne _ (by decide), strAppend_ne_of_ne _ (by decide)⟩
  · simp at hio
  · simp at hio

theorem no_companion_writes_without_iostore_witness :
    "out/MyMod.pak" = "out" ++ "/" ++ "MyMod" ++ ".pak" ∧
    "out/MyMod.pak" ≠ "out" ++ "/" ++ "MyMod" ++ ".utoc" ∧
    "out/MyMod.pak" ≠ "out" ++ "/" ++ "MyMod" ++ ".ucas" :=
  no_companion_writes_without_iostore ["pakchunk1.pak"] (fun _ => true) "MyMod" "out" "paks"
    "out/MyMod.pak" "paks/pakchunk1.pak" true (by decide)

/-- Counterexample to C6: on the UAT-failure exit path the deletion of
the temporary staging directory is attempted and fails, but no warning is
logged for it — the deletion result is silently dropped on that path. -/
theorem cleanup_failure_sometimes_unlogged :
    Ev.delTemp false ∈ (buildMod envCleanupCx "MyMod").events ∧
    Ev.warnDelTemp ∉ (buildMod envCleanupCx "MyMod").events ∧
    (buildMod envCleanupCx "MyMod").ok = false := by
  decide

/-- C6 (amended): on every exit path taken after the temporary staging
directory was created, its deletion is attempted, and the outcome of that
deletion never changes the invocation's result; a failed deletion is
logged as a warning on the path that reaches the post-copy cleanup, while
the UAT-failure and missing-Paks-directory paths ignore the deletion
result without logging. -/
theorem cleanup_always_attempted_nonfatal (env : BuildEnv) (modName : String)
    (h1 : env.outputOk = true) (h2 : env.uatExists = true) (h3 : env.mkTempOk = true) :
    Ev.delTemp env.delTempOk ∈ (buildMod env modName).events ∧
    (∀ b, (buildMod (setDelTempOk env b) modName).ok = (buildMod env modName).ok) ∧
    (env.uatOk = true → stagedPaksDir env ≠ none → env.delTempOk = false →
      Ev.warnDelTemp ∈ (buildMod env modName).events) := by
  refine ⟨?_, ?_, ?_⟩
  · cases h5 : env.uatOk
    · simp [buildMod, h1, h2, h3, h5]
    · cases h6 : stagedPaksDir env with
      | none => simp [buildMod, h1, h2, h3, h5, h6]
      | some d =>
        cases hess : (stagePhase env.paksFiles env.useIoStore env.copyOk modName
            env.outputDir d).essential <;>
          simp [buildMod, h1, h2, h3, h5, h6, hess]
  · intro b
    have hproj : (setDelTempOk env b).saveAllBefore = env.saveAllBefore ∧
        (setDelTempOk env b).outputOk = env.outputOk ∧
        (setDelTempOk env b).outputDir = env.outputDir ∧
        (setDelTempOk env b).uatExists = env.uatExists ∧
        (setDelTempOk env b).tempPreexists = env.tempPreexists ∧
        (setDelTempOk env b).preCleanOk = env.preCleanOk ∧
        (setDelTempOk env b).mkTempOk = env.mkTempOk ∧
        (setDelTempOk env b).uatOk = env.uatOk ∧
        (setDelTempOk env b).paksFiles = env.paksFiles ∧
        (setDelTempOk env b).useIoStore = env.useIoStore ∧
        (setDelTempOk env b).copyOk = env.copyOk ∧
        (setDelTempOk env b).delTempOk = b ∧
        stagedPaksDir (setDelTempOk env b) = stagedPaksDir env :=
      ⟨rfl, rfl, rfl, rfl, rfl, rfl, rfl, rfl, rfl, rfl, rfl, rfl, rfl⟩
    cases h5 : env.uatOk
    · simp [buildMod, hproj, h1, h2, h3, h5]
    · cases h6 : stagedPaksDir env with
      | none => simp [buildMod, hproj, h1, h2, h3, h5, h6]
      | some d =>
        cases hess : (stagePhase env.paksFiles env.useIoStore env.copyOk modName
            env.outputDir d).essential <;>
          simp [buildMod, hproj, h1, h2, h3, h5, h6, hess]
  · intro h5 h6ne h7
    cases h6 : stagedPaksDir env with
    | none => exact absurd h6 h6ne
    | some d =>
      cases hess : (stagePhase env.paksFiles env.useIoStore env.copyOk modName
          env.outputDir d).essential <;>
        simp [buildMod, h1, h2, h3, h5, h6, h7, hess]

theorem cleanup_always_attempted_nonfatal_witness :
    Ev.delTemp false ∈ (buildMod envCleanupW "MyMod").events ∧
    (buildMod (setDelTempOk envCleanupW true) "MyMod").ok = (buildMod envCleanupW "MyMod").ok ∧
    Ev.warnDelTemp ∈ (buildMod envCleanupW "MyMod").events :=
  have h := cleanup_always_attempted_nonfatal envCleanupW "MyMod" rfl rfl rfl
  ⟨h.1, h.2.1 true, h.2.2 rfl (by decide) rfl⟩

/-- Every event of the copy phase is a copy action: the phase touches no
other collaborator. -/
theorem stagePhase_events_shape (files : List String) (useIoStore : Bool)
    (copyOk : String → Bool) (modName outDir paksDir : String) :
    ∀ e ∈ (stagePhase files useIoStore copyOk modName outDir paksDir).events,
      ∃ d s ok, e = Ev.copyFile d s ok := by
  intro e he
  cases hsel : findHighestChunk (files.filter matchesGlobPak) with
  | none =>
    unfold stagePhase at he
    rw [hsel] at he
    simp at he
  | some c =>
    obtain ⟨n, pakName⟩ := c
    unfold stagePhase at he
    rw [hsel] at he
    simp only [List.mem_append] at he
    rcases he with (he | he) | he <;> simp at he
    · exact ⟨_, _, _, he.2⟩
    · exact ⟨_, _, _, he.2.2⟩
    · exact ⟨_, _, _, he.2.2⟩

/-- Counterexample to C7: when the output-folder lookup fails, the
invocation returns with live coding still disabled — the re-enabling
write never happens on that exit path. -/
theorem live_coding_left_disabled_on_failure :
    (buildMod envLiveCx "MyMod").ok = false ∧
    Ev.setLive false ∈ (buildMod envLiveCx "MyMod").events ∧
    Ev.setLive true ∉ (buildMod envLiveCx "MyMod").events := by
  decide

/-- C7 (amended): the live-coding flag is written to `false` first on
every invocation, and it is written back to `true` exactly on the
successful exit path; every failure path (configuration lookup, missing
UAT, staging-directory creation, external build step, Paks-directory
resolution, copy phase) returns with the flag still disabled. -/
theorem live_coding_reenabled_only_on_success (env : BuildEnv) (modName : String) :
    (Ev.setLive true ∈ (buildMod env modName).events ↔ (buildMod env modName).ok = true) ∧
    (buildMod env modName).events.head? = some (Ev.setLive false) := by
  cases h1 : env.outputOk
  · constructor <;> simp [buildMod, h1]
  · cases h2 : env.uatExists
    · constructor <;> simp [buildMod, h1, h2]
    · cases h3 : env.mkTempOk
      · constructor <;> simp [buildMod, h1, h2, h3]
      · cases h5 : env.uatOk
        · constructor <;> simp [buildMod, h1, h2, h3, h5]
        · cases h6 : stagedPaksDir env with
          | none => constructor <;> simp [buildMod, h1, h2, h3, h5, h6]
          | some d =>
            have hnot : Ev.setLive true ∉
                (stagePhase env.paksFiles env.useIoStore env.copyOk modName
                  env.outputDir d).events := by
              intro hmem
              obtain ⟨d', s', ok', he⟩ := stagePhase_events_shape env.paksFiles env.useIoStore
                env.copyOk modName env.outputDir d _ hmem
              simp at he
            cases hess : (stagePhase env.paksFiles env.useIoStore env.copyOk modName
                env.outputDir d).essential <;>
              constructor <;>
              simp [buildMod, h1, h2, h3, h5, h6, hess, hnot]

theorem live_coding_reenabled_only_on_success_witness :
    (Ev.setLive true ∈ (buildMod envLiveW "MyMod").events ↔
      (buildMod envLiveW "MyMod").ok = true) ∧
    (buildMod envLiveW "MyMod").events.head? = some (Ev.setLive false) :=
  live_coding_reenabled_only_on_success envLiveW "MyMod"

/-- C10: after a successful external build, the staged Paks directory is
resolved by trying, in this fixed order, `Win64/{project}/Content/Paks`,
then `{project}/Content/Paks`, then `Windows/{project}/Content/Paks`
under the temp staging directory; the first existing one is used, and
when none exists the invocation fails at the dedicated exit after
attempting staging-directory cleanup. -/
theorem staged_paks_dir_resolution_order (env : BuildEnv) (modName : String)
    (h1 : env.outputOk = true) (h2 : env.uatExists = true) (h3 : env.mkTempOk = true)
    (h4 : env.uatOk = true) :
    (env.dirWin64 = true →
      Ev.usePaks (env.tempDir ++ "/Win64/" ++ env.projectName ++ "/Content/Paks")
        ∈ (buildMod env modName).events) ∧
    (env.dirWin64 = false → env.dirPlain = true →
      Ev.usePaks (env.tempDir ++ "/" ++ env.projectName ++ "/Content/Paks")
        ∈ (buildMod env modName).events) ∧
    (env.dirWin64 = false → env.dirPlain = false → env.dirWindows = true →
      Ev.usePaks (env.tempDir ++ "/Windows/" ++ env.projectName ++ "/Content/Paks")
        ∈ (buildMod env modName).events) ∧
    (env.dirWin64 = false → env.dirPlain = false → env.dirWindows = false →
      (buildMod env modName).ok = false ∧
      (buildMod env modName).exit = BuildExit.paksDirMissing ∧
      Ev.delTemp env.delTempOk ∈ (buildMod env modName).events) := by
  refine ⟨?_, ?_, ?_, ?_⟩
  · intro hw
    have h6 : stagedPaksDir env =
        some (env.tempDir ++ "/Win64/" ++ env.projectName ++ "/Content/Paks") := by
      simp [stagedPaksDir, hw]
    cases hess : (stagePhase env.paksFiles env.useIoStore env.copyOk modName env.outputDir
        (env.tempDir ++ "/Win64/" ++ env.projectName ++ "/Content/Paks")).essential <;>
      simp [buildMod, h1, h2, h3, h4, h6, hess]
  · intro hw hp
    have h6 : stagedPaksDir env =
        some (env.tempDir ++ "/" ++ env.projectName ++ "/Content/Paks") := by
      simp [stagedPaksDir, hw, hp]
    cases hess : (stagePhase env.paksFiles env.useIoStore env.copyOk modName env.outputDir
        (env.tempDir ++ "/" ++ env.projectName ++ "/Content/Paks")).essential <;>
      simp [buildMod, h1, h2, h3, h4, h6, hess]
  · intro hw hp hwin
    have h6 : stagedPaksDir env =
        some (env.tempDir ++ "/Windows/" ++ env.projectName ++ "/Content/Paks") := by
      simp [stagedPaksDir, hw, hp, hwin]
    cases hess : (stagePhase env.paksFiles env.useIoStore env.copyOk modName env.outputDir
        (env.tempDir ++ "/Windows/" ++ env.projectName ++ "/Content/Paks")).essential <;>
      simp [buildMod, h1, h2, h3, h4, h6, hess]
  · intro hw hp hwin
    have h6 : stagedPaksDir env = none := by
      simp [stagedPaksDir, hw, hp, hwin]
    simp [buildMod, h1, h2, h3, h4, h6]

theorem staged_paks_dir_resolution_order_witness :
    Ev.usePaks ("tmp" ++ "/" ++ "Proj" ++ "/Content/Paks")
      ∈ (buildMod envPaksW "MyMod").events :=
  (staged_paks_dir_resolution_order envPaksW "MyMod" rfl rfl rfl rfl).2.1 rfl rfl

theorem takeWhile_append_stop {a b : List Char} {c : Char} (p : Char → Bool)
    (ha : ∀ x ∈ a, p x = true) (hc : p c = false) :
    (a ++ c :: b).takeWhile p = a := by
  induction a with
  | nil => simp [List.takeWhile_cons, hc]
  | cons x t ih =>
    have hx := ha x (List.mem_cons_self _ _)
    simp [List.takeWhile_cons, hx, ih fun y hy => ha y (List.mem_cons_of_mem _ hy)]

/-- `GetCleanFilename` keeps exactly the part after the last slash. -/
theorem getCleanFilename_append (dir tail : String)
    (h : ∀ c ∈ tail.data, (c != '/') = true) :
    getCleanFilename (dir ++ "/" ++ tail) = tail := by
  unfold getCleanFilename
  have hdata : (dir ++ "/" ++ tail).data = dir.data ++ '/' :: tail.data := by
    rw [strData_append, strData_append]
    simp
  rw [hdata, List.reverse_append]
  have hrev : ('/' :: tail.data).reverse = tail.data.reverse ++ ['/'] := by
    simp
  rw [hrev, List.append_assoc, List.singleton_append]
  rw [takeWhile_append_stop _ (fun x hx => h x (by simpa using hx)) (by decide)]
  rw [List.reverse_reverse]

theorem zip_canonical_clean (outDir modName ext : String)
    (hm : ∀ c ∈ modName.data, (c != '/') = true)
    (he : ∀ c ∈ ext.data, (c != '/') = true) :
    getCleanFilename (outDir ++ "/" ++ modName ++ ext) = modName ++ ext := by
  rw [strAppend_assoc]
  refine getCleanFilename_append _ _ ?_
  intro c hc
  rw [strData_append] at hc
  rcases List.mem_append.mp hc with hc | hc
  · exact hm c hc
  · exact he c hc

/-- Counterexample to C3: with the primary `MyMod.pak` absent but both
companion canonical files present, the archive operation does not fail
with NothingToArchive — it proceeds and succeeds, archiving only the two
companions. -/
theorem zip_succeeds_without_primary :
    (zipModInternal envZipCx "MyMod").ok = true ∧
    (zipModInternal envZipCx "MyMod").exit ≠ ZipExit.nothingToArchive ∧
    (zipModInternal envZipCx "MyMod").events =
      [ZEv.openedArchive, ZEv.addFile "MyMod.utoc" [7], ZEv.addFile "MyMod.ucas" [8],
        ZEv.closedArchive] := by
  decide

/-- C3 (amended): the archive operation fails with NothingToArchive —
producing no archive actions and claiming no success — exactly when no
archivable file is found: the primary canonical file is absent and the
two companion canonical files are not both present.  (When the primary is
absent but both companions exist, the operation instead proceeds with the
companions alone.) -/
theorem zip_nothing_to_archive (env : ZipEnv) (modName : String)
    (h0 : env.outputOk = true)
    (hp : env.fsContent (env.outputDir ++ "/" ++ modName ++ ".pak") = none)
    (hc : env.fsContent (env.outputDir ++ "/" ++ modName ++ ".utoc") = none ∨
      env.fsContent (env.outputDir ++ "/" ++ modName ++ ".ucas") = none) :
    zipModInternal env modName = ⟨false, ZipExit.nothingToArchive, []⟩ := by
  unfold zipModInternal
  rcases hc with hc | hc <;> simp [h0, hp, hc]

theorem zip_nothing_to_archive_witness :
    zipModInternal envZipEmpty "MyMod" = ⟨false, ZipExit.nothingToArchive, []⟩ :=
  zip_nothing_to_archive envZipEmpty "MyMod" rfl rfl (Or.inl rfl)

/-- C8: when the destination folder holds all three canonical files, the
archive operation succeeds and issues exactly three add-file calls to the
archive writer, named `{mod}.pak`, `{mod}.utoc`, `{mod}.ucas`, each
carrying exactly the bytes of the corresponding source file. -/
theorem zip_roundtrip_three_entries (env : ZipEnv) (modName : String)
    (pb ub cb : List Nat)
    (h0 : env.outputOk = true)
    (hm : ∀ c ∈ modName.data, (c != '/') = true)
    (hp : env.fsContent (env.outputDir ++ "/" ++ modName ++ ".pak") = some pb)
    (hu : env.fsContent (env.outputDir ++ "/" ++ modName ++ ".utoc") = some ub)
    (hc : env.fsContent (env.outputDir ++ "/" ++ modName ++ ".ucas") = some cb)
    (hdir : env.zipDirOk = true) (hopen : env.openOk = true)
    (hr1 : env.readOk (env.outputDir ++ "/" ++ modName ++ ".pak") = true)
    (hr2 : env.readOk (env.outputDir ++ "/" ++ modName ++ ".utoc") = true)
    (hr3 : env.readOk (env.outputDir ++ "/" ++ modName ++ ".ucas") = true) :
    zipModInternal env modName =
      ⟨true, ZipExit.done,
        [ZEv.openedArchive, ZEv.addFile (modName ++ ".pak") pb,
          ZEv.addFile (modName ++ ".utoc") ub, ZEv.addFile (modName ++ ".ucas") cb,
          ZEv.closedArchive]⟩ := by
  have hc1 : getCleanFilename (env.outputDir ++ "/" ++ modName ++ ".pak") =
      modName ++ ".pak" := zip_canonical_clean _ _ _ hm (by decide)
  have hc2 : getCleanFilename (env.outputDir ++ "/" ++ modName ++ ".utoc") =
      modName ++ ".utoc" := zip_canonical_clean _ _ _ hm (by decide)
  have hc3 : getCleanFilename (env.outputDir ++ "/" ++ modName ++ ".ucas") =
      modName ++ ".ucas" := zip_canonical_clean _ _ _ hm (by decide)
  unfold zipModInternal
  simp [h0, hp, hu, hc, hdir, hopen, hr1, hr2, hr3, hc1, hc2, hc3]

theorem zip_roundtrip_three_entries_witness :
    zipModInternal envZipFull "MyMod" =
      ⟨true, ZipExit.done,
        [ZEv.openedArchive, ZEv.addFile ("MyMod" ++ ".pak") [1, 2],
          ZEv.addFile ("MyMod" ++ ".utoc") [3], ZEv.addFile ("MyMod" ++ ".ucas") [4],
          ZEv.closedArchive]⟩ :=
  zip_roundtrip_three_entries envZipFull "MyMod" [1, 2] [3] [4] rfl (by decide)
    (by decide) (by decide) (by decide) rfl rfl rfl rfl rfl
